import Mathlib

/-!
# Verification of the volatility-surface engine

A shallow embedding of the volatility-surface repository
(`src/visualiser/__init__.py`, `src/utils/__init__.py`,
`src/volatility_surface/__init__.py`) together with proofs and refutations
of the specification's claims about it.

Conventions of the embedding:
* A grid cell holding `NaN` in the numpy matrix is modelled as `none`;
  a solved implied volatility is `some v` with `v : ℚ`.
* Machine floats are modelled as exact rationals; the properties treated
  here (fill policy, cardinalities, filtering, clamping) do not depend on
  rounding.
* Calendar dates are modelled as proleptic-Gregorian triples with the same
  ordinal/weekday arithmetic as Python's `datetime` (Monday = 0).
-/

/-- A grid cell: a solved implied volatility, or `none` for a missing
(`NaN`) cell, as produced by the solving loop of `run`
(`src/visualiser/__init__.py`, lines 93–112). -/
abbrev Cell := Option ℚ

/-- One expiry row of the volatility matrix `vol_matrix[i, :]`. -/
abbrev Row := List Cell

/-- The volatility matrix `vol_matrix`, one row per expiry. -/
abbrev Mat := List Row

/-- Forward fill of one row (`src/visualiser/__init__.py`, lines 118–121):
`for j in range(1, n_strk): if isnan(row[j]) and not isnan(row[j-1]):
row[j] = row[j-1]`.  Because the assignment happens in place, a filled cell
immediately serves as the source for the next one, so the last non-missing
value seen propagates forward; `last` is that value (initially `none`,
since the first cell is never forward-filled). -/
def ffill (last : Cell) : Row → Row
  | [] => []
  | none :: row => last :: ffill last row
  | some v :: row => some v :: ffill (some v) row

/-- One step of the backward fill: prepend the cell `c` to the already
backward-filled rest of the row, copying the value to its right when `c`
is missing and that value exists. -/
def bfillCons (c : Cell) (rest : Row) : Row :=
  match c, rest with
  | none, some v :: rest => some v :: some v :: rest
  | c, rest => c :: rest

/-- Backward fill of one row (`src/visualiser/__init__.py`, lines 122–125):
`for j in range(n_strk-2, -1, -1): if isnan(row[j]) and not isnan(row[j+1]):
row[j] = row[j+1]`.  The loop runs right to left in place, so a filled cell
immediately serves as the source for the cell to its left. -/
def bfill : Row → Row
  | [] => []
  | c :: row => bfillCons c (bfill row)

/-- The non-missing values of the matrix, in row-major order: the values
`np.nanmedian` aggregates over. -/
def gridVals (m : Mat) : List ℚ :=
  (m.flatten).filterMap id

/-- `np.nanmedian` over a matrix: the median of the non-missing values
(sorted; middle element for odd count, mean of the two middle elements for
even count), and `none` (numpy: `NaN`) when every cell is missing. -/
def nanmedian (m : Mat) : Cell :=
  let s := List.insertionSort (· ≤ ·) (gridVals m)
  if s.length = 0 then none
  else if s.length % 2 = 1 then some (s.getD (s.length / 2) 0)
  else some ((s.getD (s.length / 2 - 1) 0 + s.getD (s.length / 2) 0) / 2)

/-- `row[np.isnan(row)] = med` (`src/visualiser/__init__.py`, line 127):
every still-missing cell of the row is assigned `med`.  Assigning a `NaN`
median (the all-missing grid) leaves the cell missing, which is exactly
`none` being assigned here. -/
def residualFill (med : Cell) (row : Row) : Row :=
  row.map fun c =>
    match c with
    | none => med
    | some v => some v

/-- Processing of a single expiry row by the repair loop
(`src/visualiser/__init__.py`, lines 114–128).  `done` are the rows already
processed (the loop mutates `vol_matrix` in place, so they carry their
filled values), `todo` the untouched later rows.  The guard is
`np.isnan(row).any()`; the median is `np.nanmedian(vol_matrix)` taken on
the matrix state at this iteration — `row` is a view into `vol_matrix`, so
the matrix seen by `nanmedian` is `done ++ [r2] ++ todo` with `r2` the
already forward/backward-filled row. -/
def fillStep (done : Mat) (row : Row) (todo : Mat) : Row :=
  if row.any fun c => c.isNone then
    residualFill (nanmedian (done ++ bfill (ffill none row) :: todo))
      (bfill (ffill none row))
  else row

/-- The repair loop over the rows of `vol_matrix`
(`src/visualiser/__init__.py`, lines 115–128), processed first to last,
each row seeing the in-place fills of the earlier rows. -/
def fillLoop : Mat → Mat → Mat
  | done, [] => done
  | done, row :: todo => fillLoop (done ++ [fillStep done row todo]) todo

/-- The whole missing-value repair step of `run`
(`src/visualiser/__init__.py`, lines 114–128) applied to the solved
volatility matrix. -/
def fillMatrix (m : Mat) : Mat := fillLoop [] m

/-- The failure modes of QuantLib's `VanillaOption.impliedVolatility`, all
of which surface in Python as a `RuntimeError`: the bracket
`[vol_min, vol_max]` contains no root, the iteration budget is exhausted
without reaching `tol`, or a numeric instability occurs. -/
inductive SolverFailure
  | noRoot
  | nonConvergence
  | numericError
deriving DecidableEq

/-- `implied_vol_mid` (`src/visualiser/__init__.py`, lines 10–33).  The
external QuantLib call `option.impliedVolatility(mid_price, ...)` is
abstracted as `solver : ℚ → Except SolverFailure ℚ`, applied to the mid
price `0.5 * (bid + ask)`; a successful solve is returned as `some vol`,
and the `except RuntimeError: return None` clause maps every failure to
`none`.  The function is total: no exception propagates to the caller. -/
def implied_vol_mid (solver : ℚ → Except SolverFailure ℚ) (bid ask : ℚ) :
    Option ℚ :=
  let mid_price := (1 / 2 : ℚ) * (bid + ask)
  match solver mid_price with
  | .ok vol => some vol
  | .error _ => none

/-- The only exception the sampling expression of `run` can raise:
`int(i * days / (n_points - 1))` divides by zero when `n_points = 1`. -/
inductive PyFailure
  | zeroDivision
deriving DecidableEq

/-- The sampled dates of `run` (`src/visualiser/__init__.py`,
lines 148–151), as day offsets from the valuation date:
`date_range = [ql_today + int(i * (last_expiry - ql_today) / (n_points - 1))
for i in range(n_points)]`, with `D` the number of days from the valuation
date to the last expiry.  Python's `int()` truncation of the non-negative
quotient is ℕ floor division.  With `n = 0` the comprehension is empty and
no division runs; with `n = 1` the body raises `ZeroDivisionError`; the
source never validates `n` (it is the constant `n_points = 50`,
line 37). -/
def date_range (D : ℕ) (n : ℕ) : Except PyFailure (List ℕ) :=
  if n = 1 then .error .zeroDivision
  else .ok ((List.range n).map fun i => i * D / (n - 1))

/-- `Actual365Fixed.yearFraction` between the valuation date and the date
`off` days later: `off / 365`. -/
def yearFraction (off : ℕ) : ℚ := (off : ℚ) / 365

/-- The sampled expiry year-fractions `expiry_periods`
(`src/visualiser/__init__.py`, lines 152–153). -/
def expiry_periods (D : ℕ) (n : ℕ) : Except PyFailure (List ℚ) :=
  (date_range D n).map fun ds => ds.map yearFraction

/-- The dense sampling loop of `run` (`src/visualiser/__init__.py`,
lines 156–159): `vol_surface[i, j] = black_var_handle.blackVol(t, k)` for
every sampled year-fraction `t` and strike `k`; the surface query is the
abstract parameter `query`. -/
def sample_surface (query : ℚ → ℚ → ℚ) (ts ks : List ℚ) : List (List ℚ) :=
  ts.map fun t => ks.map fun k => query t k

/-- The repaired grid wrapped for interpolation: expiry year-fractions
(ascending), strikes (ascending), and one row of volatilities per
expiry. -/
structure Surface where
  ts : List ℚ
  ks : List ℚ
  vols : List (List ℚ)

/-- Clamp `x` into the interval `[lo, hi]`. -/
def clamp (lo hi x : ℚ) : ℚ := max lo (min x hi)

/-- Piecewise-linear interpolation through the nodes (assumed sorted by
abscissa); the query abscissa is assumed already clamped into the node
range. -/
def interp1 (nodes : List (ℚ × ℚ)) (x : ℚ) : ℚ :=
  match nodes with
  | [] => 0
  | [(_, v)] => v
  | (x0, v0) :: (x1, v1) :: rest =>
    if x ≤ x1 then v0 + (v1 - v0) * (x - x0) / (x1 - x0)
    else interp1 ((x1, v1) :: rest) x

/-- Modelled from the spec: the SurfaceInterpolator's `Surface.query` is
implemented by `build_surface` (imported by `src/volatility_surface` from
`visualiser` but absent from the sources) via QuantLib's
`BlackVarianceSurface`; §4.4 specifies it as bilinear interpolation of the
nearest grid nodes, "clamped at the grid boundary (extrapolation beyond
the last/first expiry or strike returns the boundary row/column's
value)".  The query clamps `t` and `k` into the grid range, interpolates
each expiry row at the clamped strike, then interpolates across expiries
at the clamped time. -/
def Surface.query (s : Surface) (t k : ℚ) : ℚ :=
  let tmin := s.ts.headD 0
  let tmax := s.ts.getLastD 0
  let kmin := s.ks.headD 0
  let kmax := s.ks.getLastD 0
  let tc := clamp tmin tmax t
  let kc := clamp kmin kmax k
  let smile := s.vols.map fun row => interp1 (s.ks.zip row) kc
  interp1 (s.ts.zip smile) tc

/-- A calendar date, proleptic Gregorian, matching Python's `datetime`
(`pd.Timestamp` normalized to midnight). -/
structure Date where
  year : ℕ
  month : ℕ
  day : ℕ
deriving DecidableEq

/-- Gregorian leap-year rule, as in Python's `calendar` module. -/
def isLeap (y : ℕ) : Bool := (y % 4 == 0 && y % 100 != 0) || y % 400 == 0

/-- Number of days in a month of a given year. -/
def daysInMonth (y m : ℕ) : ℕ :=
  if m = 2 then (if isLeap y then 29 else 28)
  else if m = 4 ∨ m = 6 ∨ m = 9 ∨ m = 11 then 30
  else 31

/-- Days in the months of `y` strictly before month `m`. -/
def daysBeforeMonth (y m : ℕ) : ℕ :=
  ((List.range (m - 1)).map fun i => daysInMonth y (i + 1)).sum

/-- The proleptic-Gregorian ordinal of a date, as in Python's
`date.toordinal()` (January 1 of year 1 is day 1).  Chronological
comparison of `pd.Timestamp`s is comparison of these ordinals. -/
def Date.ord (dt : Date) : ℕ :=
  365 * (dt.year - 1) + (dt.year - 1) / 4 - (dt.year - 1) / 100
    + (dt.year - 1) / 400 + daysBeforeMonth dt.year dt.month + dt.day

/-- Python's `weekday()`: Monday = 0, ..., Friday = 4, regardless of year;
day 1 (0001-01-01) is a Monday. -/
def Date.weekday (dt : Date) : ℕ := (dt.ord + 6) % 7

/-- The day numbers of the Fridays of a month, ascending — exactly the
nonzero Friday column entries of `calendar.monthcalendar(year, month)`
collected by `is_third_friday` (`src/utils/__init__.py`, lines 26–31). -/
def fridaysOfMonth (y m : ℕ) : List ℕ :=
  (List.range (daysInMonth y m)).filterMap fun i =>
    if Date.weekday ⟨y, m, i + 1⟩ = 4 then some (i + 1) else none

/-- `is_third_friday` (`src/utils/__init__.py`, lines 23–33): the date is a
Friday, the month has at least three Fridays, and the day equals the third
Friday (`fridays[2]`). -/
def is_third_friday (dt : Date) : Bool :=
  dt.weekday == 4 &&
    (decide (3 ≤ (fridaysOfMonth dt.year dt.month).length) &&
      dt.day == (fridaysOfMonth dt.year dt.month).getD 2 0)

/-- The option type parsed from the option code: `"C"` or `"P"`. -/
inductive OptType
  | C
  | P
deriving DecidableEq

/-- One row of the filtered-options table, with the persisted columns
`expiry, spot, strike, bid, ask, iv, type` (`src/utils/__init__.py`,
line 162); numeric columns already cast to float. -/
structure Quote where
  expiry : Date
  spot : ℚ
  strike : ℚ
  bid : ℚ
  ask : ℚ
  iv : ℚ
  ty : OptType
deriving DecidableEq

/-- The moneyness distance `atm_diff = abs(strike - spot)`
(`src/utils/__init__.py`, lines 154–155); the absolute value is spelled
out by cases so that it evaluates by kernel reduction. -/
def atmDiff (q : Quote) : ℚ :=
  if q.strike - q.spot < 0 then -(q.strike - q.spot) else q.strike - q.spot

/-- The upcoming standard expiries `future_std`
(`src/utils/__init__.py`, lines 139–146): the distinct expiries of the
data that are third Fridays and fall on or after `today`.  (The source
builds a sorted set; only membership in it is used downstream, via
`isin`.) -/
def futureStd (today : Date) (quotes : List Quote) : List Date :=
  (quotes.map fun q => q.expiry).dedup.filter fun e =>
    is_third_friday e && decide (today.ord ≤ e.ord)

/-- Group-position count: how many quotes of `l` share the expiry `e`.
`groupby("expiry").head(10)` keeps a row exactly when fewer than 10 rows
of its expiry precede it. -/
def countKey (e : Date) (l : List Quote) : ℕ :=
  l.countP fun q => q.expiry == e

/-- Traversal underlying `groupby("expiry").head(n)`: a row is kept when
fewer than `n` rows with the same expiry were seen before it; every row,
kept or dropped, is added to `seen`. -/
def groupHeadAux (n : ℕ) (seen : List Quote) : List Quote → List Quote
  | [] => []
  | q :: rest =>
    if countKey q.expiry seen < n then
      q :: groupHeadAux n (seen ++ [q]) rest
    else groupHeadAux n (seen ++ [q]) rest

/-- `df.groupby("expiry").head(n)`: the first `n` rows of each expiry
group, in the original row order. -/
def groupHead (n : ℕ) (l : List Quote) : List Quote := groupHeadAux n [] l

/-- Ranking relation of `sort_values("atm_diff")`. -/
def diffLE (a b : Quote) : Prop := atmDiff a ≤ atmDiff b

instance : DecidableRel diffLE := fun a b =>
  inferInstanceAs (Decidable (atmDiff a ≤ atmDiff b))

instance : IsTotal Quote diffLE := ⟨fun a b => le_total (atmDiff a) (atmDiff b)⟩

instance : IsTrans Quote diffLE := ⟨fun _ _ _ h h' => le_trans h h'⟩

/-- Ordering relation of the final `sort_values("expiry")`. -/
def expLE (a b : Quote) : Prop := a.expiry.ord ≤ b.expiry.ord

instance : DecidableRel expLE := fun a b =>
  inferInstanceAs (Decidable (a.expiry.ord ≤ b.expiry.ord))

instance : IsTotal Quote expLE := ⟨fun a b => le_total a.expiry.ord b.expiry.ord⟩

instance : IsTrans Quote expLE := ⟨fun _ _ _ h h' => le_trans h h'⟩

/-- The intermediate frame `df_next_monthly` of `upload_filtered_options`
(`src/utils/__init__.py`, lines 151–153): the quotes whose expiry is an
upcoming standard expiry (`df["expiry"].isin(future_std)`), restricted to
Calls (`df_next_monthly["type"] == "C"`). -/
def stdCalls (today : Date) (quotes : List Quote) : List Quote :=
  (quotes.filter fun q => (futureStd today quotes).contains q.expiry).filter
    fun q => q.ty == OptType.C

/-- The ATM-selection filtering step of `upload_filtered_options`
(`src/utils/__init__.py`, lines 138–159): keep the Call quotes at upcoming
standard expiries (`stdCalls`), sort by `atm_diff` ascending, keep the
first 10 rows of each expiry group (`groupby("expiry").head(10)`), and
sort the result by expiry.  (Pandas' default sort is not stable, so the
order among equal keys is unspecified in the source; the stable
`insertionSort` fixes one such order.  None of the properties proved
below depends on the order among ties.) -/
def atm_filter (today : Date) (quotes : List Quote) : List Quote :=
  List.insertionSort expLE (groupHead 10 (List.insertionSort diffLE (stdCalls today quotes)))

/-- The cached-read branch of `get_option_data`
(`src/volatility_surface/__init__.py`, lines 25–33): when the filtered
blob exists, the frame read back from CSV is post-processed by
`df['ask'] = df['ask'].astype(float)`, `df['bid'] = df['bid'].astype(float)`,
`df['spot'] = df['strike'].astype(float)`,
`df['strike'] = df['strike'].astype(float)` — the `spot` column is
overwritten with the `strike` column (the casts are identities in the
rational model). -/
def get_option_data_cached (rows : List Quote) : List Quote :=
  rows.map fun r =>
    { r with ask := r.ask, bid := r.bid, spot := r.strike, strike := r.strike }

/-- A matrix has at least one non-missing cell (at least one quote was
solvable). -/
def hasSolvedCell (m : Mat) : Prop := ∃ row ∈ m, ∃ c ∈ row, c.isSome

lemma ffill_length (last : Cell) (row : Row) :
    (ffill last row).length = row.length := by
  induction row generalizing last with
  | nil => rfl
  | cons c rest ih => cases c <;> simp [ffill, ih]

lemma bfillCons_length (c : Cell) (rest : Row) :
    (bfillCons c rest).length = rest.length + 1 := by
  cases c with
  | some v => rfl
  | none =>
    cases rest with
    | nil => rfl
    | cons c' rest' => cases c' <;> rfl

lemma bfill_length (row : Row) : (bfill row).length = row.length := by
  induction row with
  | nil => rfl
  | cons c rest ih => simp [bfill, bfillCons_length, ih]

lemma residualFill_length (med : Cell) (row : Row) :
    (residualFill med row).length = row.length := by
  simp [residualFill]

lemma ffill_of_all_none {row : Row} (h : ∀ c ∈ row, c = none) :
    ffill none row = row := by
  induction row with
  | nil => rfl
  | cons c rest ih =>
    have hc : c = none := h c (by simp)
    subst hc
    simp only [ffill]
    rw [ih fun c hc => h c (by simp [hc])]

lemma bfill_of_all_none {row : Row} (h : ∀ c ∈ row, c = none) :
    bfill row = row := by
  induction row with
  | nil => rfl
  | cons c rest ih =>
    have hc : c = none := h c (by simp)
    have ih' : bfill rest = rest := ih fun c hc => h c (by simp [hc])
    subst hc
    simp only [bfill, ih']
    cases rest with
    | nil => rfl
    | cons c' rest' =>
      have : c' = none := h c' (by simp)
      subst this
      rfl

lemma bfillCons_of_some (v : ℚ) (rest : Row) :
    bfillCons (some v) rest = some v :: rest := by
  cases rest with
  | nil => rfl
  | cons c' rest' => cases c' <;> rfl

lemma ffill_all_some {row : Row} (v : ℚ) :
    ∀ c ∈ ffill (some v) row, c.isSome := by
  induction row generalizing v with
  | nil => simp [ffill]
  | cons c rest ih =>
    cases c with
    | none =>
      simp only [ffill, List.mem_cons]
      rintro c (rfl | hc)
      · rfl
      · exact ih v c hc
    | some w =>
      simp only [ffill, List.mem_cons]
      rintro c (rfl | hc)
      · rfl
      · exact ih w c hc

lemma bfill_of_all_some {row : Row} (h : ∀ c ∈ row, c.isSome) :
    bfill row = row := by
  induction row with
  | nil => rfl
  | cons c rest ih =>
    have ih' : bfill rest = rest := ih fun c hc => h c (by simp [hc])
    obtain ⟨v, rfl⟩ := Option.isSome_iff_exists.mp (h c (by simp))
    simp only [bfill, ih', bfillCons_of_some]

lemma bfill_ffill_all_some {row : Row} (h : ∃ c ∈ row, c.isSome) :
    ∀ c ∈ bfill (ffill none row), c.isSome := by
  induction row with
  | nil => simp at h
  | cons c rest ih =>
    cases c with
    | some v =>
      have hf : ∀ c ∈ ffill (some v) rest, c.isSome := ffill_all_some v
      have hall : ∀ c ∈ (some v : Cell) :: ffill (some v) rest, c.isSome := by
        simp only [List.mem_cons]
        rintro c (rfl | hc)
        · rfl
        · exact hf c hc
      intro c hc
      simp only [ffill] at hc
      rw [bfill_of_all_some hall] at hc
      exact hall c hc
    | none =>
      have hrest : ∃ c ∈ rest, c.isSome := by
        obtain ⟨c, hc, hs⟩ := h
        rcases List.mem_cons.mp hc with rfl | hc
        · simp at hs
        · exact ⟨c, hc, hs⟩
      have ihr := ih hrest
      have hne : bfill (ffill none rest) ≠ [] := by
        have h1 : rest ≠ [] := by
          obtain ⟨c, hc, _⟩ := hrest
          exact List.ne_nil_of_mem hc
        have : (bfill (ffill none rest)).length = rest.length := by
          rw [bfill_length, ffill_length]
        intro hcon
        rw [hcon] at this
        exact h1 (List.eq_nil_of_length_eq_zero this.symm)
      obtain ⟨c0, r0, hr0⟩ := List.exists_cons_of_ne_nil hne
      obtain ⟨w, hw⟩ := Option.isSome_iff_exists.mp (ihr c0 (by simp [hr0]))
      subst hw
      simp only [ffill, bfill, hr0, bfillCons, List.mem_cons]
      rintro c (rfl | rfl | hc)
      · rfl
      · rfl
      · exact ihr c (by rw [hr0]; simp [hc])

lemma residualFill_all_some_of_some {row : Row}
    (h : ∀ c ∈ row, c.isSome) (med : Cell) :
    ∀ c ∈ residualFill med row, c.isSome := by
  intro c hc
  simp only [residualFill, List.mem_map] at hc
  obtain ⟨c0, hc0, rfl⟩ := hc
  obtain ⟨w, rfl⟩ := Option.isSome_iff_exists.mp (h c0 hc0)
  rfl

lemma residualFill_all_some {row : Row} (v : ℚ) :
    ∀ c ∈ residualFill (some v) row, c.isSome := by
  intro c hc
  simp only [residualFill, List.mem_map] at hc
  obtain ⟨c0, hc0, rfl⟩ := hc
  cases c0 <;> rfl

lemma residualFill_none (row : Row) : residualFill none row = row := by
  induction row with
  | nil => rfl
  | cons c rest ih => cases c <;> simp [residualFill] at ih ⊢ <;> exact ih

lemma gridVals_ne_nil {m : Mat} (h : hasSolvedCell m) : gridVals m ≠ [] := by
  obtain ⟨row, hrow, c, hc, hs⟩ := h
  obtain ⟨v, rfl⟩ := Option.isSome_iff_exists.mp hs
  have : v ∈ gridVals m := by
    simp only [gridVals, List.mem_filterMap, id]
    exact ⟨some v, List.mem_flatten.mpr ⟨row, hrow, hc⟩, rfl⟩
  exact List.ne_nil_of_mem this

lemma gridVals_eq_nil {m : Mat} (h : ∀ row ∈ m, ∀ c ∈ row, c = none) :
    gridVals m = [] := by
  simp only [gridVals, List.filterMap_eq_nil_iff, id]
  intro c hc
  obtain ⟨row, hrow, hcrow⟩ := List.mem_flatten.mp hc
  exact h row hrow c hcrow

lemma nanmedian_isSome {m : Mat} (h : hasSolvedCell m) :
    (nanmedian m).isSome := by
  have hne := gridVals_ne_nil h
  have hlen : (List.insertionSort (· ≤ ·) (gridVals m)).length ≠ 0 := by
    rw [List.length_insertionSort]
    exact fun hc => hne (List.eq_nil_of_length_eq_zero hc)
  unfold nanmedian
  simp only [hlen, if_false]
  split <;> rfl

lemma nanmedian_of_all_none {m : Mat} (h : ∀ row ∈ m, ∀ c ∈ row, c = none) :
    nanmedian m = none := by
  unfold nanmedian
  rw [gridVals_eq_nil h]
  rfl

lemma fillStep_of_no_none {row : Row} (done todo : Mat)
    (h : ∀ c ∈ row, c.isSome) : fillStep done row todo = row := by
  unfold fillStep
  rw [if_neg]
  simp only [List.any_eq_true, not_exists]
  intro c
  rw [not_and]
  intro hc
  simp [Option.isNone_iff_eq_none]
  obtain ⟨v, rfl⟩ := Option.isSome_iff_exists.mp (h c hc)
  simp

lemma fillStep_length (done todo : Mat) (row : Row) :
    (fillStep done row todo).length = row.length := by
  unfold fillStep
  split
  · rw [residualFill_length, bfill_length, ffill_length]
  · rfl

lemma fillStep_all_some {done todo : Mat} {row : Row}
    (h : hasSolvedCell (done ++ row :: todo)) :
    ∀ c ∈ fillStep done row todo, c.isSome := by
  unfold fillStep
  split
  · by_cases hrow : ∃ c ∈ row, c.isSome
    · exact residualFill_all_some_of_some (bfill_ffill_all_some hrow) _
    · have hrownone : ∀ c ∈ row, c = none := by
        intro c hc
        cases hco : c with
        | none => rfl
        | some v => exact absurd ⟨c, hc, by simp [hco]⟩ hrow
      rw [ffill_of_all_none hrownone, bfill_of_all_none hrownone]
      obtain ⟨v, hv⟩ := Option.isSome_iff_exists.mp (nanmedian_isSome h)
      rw [hv]
      exact residualFill_all_some v
  · rename_i hguard
    intro c hc
    simp only [List.any_eq_true, not_exists] at hguard
    cases hco : c with
    | none => exact absurd ⟨hc, by simp [hco]⟩ (hguard c)
    | some v => rfl

lemma hasSolvedCell_append_left {m m' : Mat} (h : hasSolvedCell m) :
    hasSolvedCell (m ++ m') := by
  obtain ⟨r, hr, c, hc, hs⟩ := h
  exact ⟨r, List.mem_append_left m' hr, c, hc, hs⟩

lemma hasSolvedCell_step {done todo : Mat} {row : Row}
    (h : hasSolvedCell (done ++ row :: todo)) :
    hasSolvedCell (done ++ fillStep done row todo :: todo) := by
  obtain ⟨r, hr, c, hc, hs⟩ := h
  rcases List.mem_append.mp hr with hrd | hrc
  · exact ⟨r, List.mem_append_left _ hrd, c, hc, hs⟩
  · rcases List.mem_cons.mp hrc with rfl | hrt
    · have hne : fillStep done r todo ≠ [] := by
        have hlen := fillStep_length done todo r
        intro hcon
        rw [hcon] at hlen
        exact List.ne_nil_of_mem hc (List.eq_nil_of_length_eq_zero hlen.symm)
      obtain ⟨c0, r0, hr0⟩ := List.exists_cons_of_ne_nil hne
      have hall := @fillStep_all_some done todo r
        ⟨r, List.mem_append_right done (by simp), c, hc, hs⟩
      exact ⟨fillStep done r todo, List.mem_append_right done (by simp), c0,
        by simp [hr0], hall c0 (by simp [hr0])⟩
    · exact ⟨r, List.mem_append_right done (by simp [hrt]), c, hc, hs⟩

lemma fillLoop_all_some :
    ∀ todo done : Mat, hasSolvedCell (done ++ todo) →
      (∀ r ∈ done, ∀ c ∈ r, c.isSome) →
      ∀ r ∈ fillLoop done todo, ∀ c ∈ r, c.isSome := by
  intro todo
  induction todo with
  | nil =>
    intro done h hdone
    simpa [fillLoop] using hdone
  | cons row todo ih =>
    intro done h hdone
    rw [fillLoop]
    apply ih
    · have hstep := hasSolvedCell_step h
      rwa [List.append_cons] at hstep
    · intro r hr
      rcases List.mem_append.mp hr with hrd | hrs
      · exact hdone r hrd
      · rcases List.mem_singleton.mp hrs with rfl
        exact fillStep_all_some h

lemma fillStep_of_all_none_matrix {done todo : Mat} {row : Row}
    (hd : ∀ r ∈ done, ∀ c ∈ r, c = none) (hr : ∀ c ∈ row, c = none)
    (ht : ∀ r ∈ todo, ∀ c ∈ r, c = none) :
    fillStep done row todo = row := by
  unfold fillStep
  split
  · rw [ffill_of_all_none hr, bfill_of_all_none hr]
    rw [nanmedian_of_all_none]
    · exact residualFill_none row
    · intro r hrm c hc
      rcases List.mem_append.mp hrm with hrd | hrc
      · exact hd r hrd c hc
      · rcases List.mem_cons.mp hrc with rfl | hrt
        · exact hr c hc
        · exact ht r hrt c hc
  · rfl

lemma fillLoop_of_all_none :
    ∀ todo done : Mat, (∀ r ∈ done, ∀ c ∈ r, c = none) →
      (∀ r ∈ todo, ∀ c ∈ r, c = none) →
      fillLoop done todo = done ++ todo := by
  intro todo
  induction todo with
  | nil => intro done _ _; simp [fillLoop]
  | cons row todo ih =>
    intro done hd ht
    rw [fillLoop]
    rw [fillStep_of_all_none_matrix hd (ht row (by simp))
      fun r hr => ht r (by simp [hr])]
    rw [ih (done ++ [row])
      (by
        intro r hr c hc
        rcases List.mem_append.mp hr with hrd | hrs
        · exact hd r hrd c hc
        · rcases List.mem_singleton.mp hrs with rfl
          exact ht r (by simp) c hc)
      fun r hr => ht r (by simp [hr])]
    simp

lemma fillStep_of_no_none_loop :
    ∀ todo done : Mat, (∀ r ∈ todo, ∀ c ∈ r, c.isSome) →
      fillLoop done todo = done ++ todo := by
  intro todo
  induction todo with
  | nil => intro done _; simp [fillLoop]
  | cons row todo ih =>
    intro done ht
    rw [fillLoop, fillStep_of_no_none done todo (ht row (by simp)),
      ih (done ++ [row]) fun r hr => ht r (by simp [hr])]
    simp

/-- C2 (amended): when every grid cell is missing after solving, the
repair step of `run` does not fail and does not raise any error: the
forward/backward fills are no-ops, the residual median of an all-missing
matrix is `NaN` (`none`), assigning it leaves every cell missing, and the
all-missing grid is returned unchanged to the caller — there is no
`EmptyGridError` anywhere in the source. -/
theorem c2_all_missing_passthrough (m : Mat)
    (h : ∀ r ∈ m, ∀ c ∈ r, c = none) : fillMatrix m = m := by
  have := fillLoop_of_all_none m [] (by simp) h
  simpa [fillMatrix] using this

/-- C2 witness: the all-missing 2×1 grid is returned unchanged. -/
theorem c2_witness : fillMatrix [[none], [none]] = [[none], [none]] :=
  c2_all_missing_passthrough [[none], [none]] (by decide)

/-- C2 counterexample: on an input in which no quote could be priced
(every cell missing after solving), the build does not fail with an
`EmptyGridError`: the repair step returns a grid — still all-missing —
to the caller. -/
theorem c2_counterexample :
    fillMatrix [[none, none], [none, none]] = [[none, none], [none, none]] := by
  decide

/-- C3: for every grid with at least one solved (non-missing) cell, the
repair step of `run` (forward fill, backward fill, residual median fill)
returns a grid with zero missing cells. -/
theorem c3_no_missing_cells (m : Mat) (h : hasSolvedCell m) :
    ∀ row ∈ fillMatrix m, ∀ c ∈ row, c.isSome := by
  intro row hrow
  exact fillLoop_all_some m [] (by simpa [hasSolvedCell]) (by simp) row
    (by simpa [fillMatrix] using hrow)

/-- C3 witness: a 2×1 grid with one solved cell and one all-missing row
is returned fully populated; the cell of its second row is non-missing. -/
theorem c3_witness :
    Option.isSome (((fillMatrix [[some 2], [none]]).getD 1 []).getD 0 none) = true :=
  c3_no_missing_cells [[some 2], [none]]
    ⟨[some 2], by decide, some 2, by decide, rfl⟩
    ((fillMatrix [[some 2], [none]]).getD 1 []) (by decide)
    (((fillMatrix [[some 2], [none]]).getD 1 []).getD 0 none) (by decide)

/-- C9: the repair step is idempotent on populated grids — a grid with no
missing cell is returned unchanged (every row fails the
`np.isnan(row).any()` guard, so no fill runs). -/
theorem c9_fill_idempotent (m : Mat)
    (h : ∀ r ∈ m, ∀ c ∈ r, c.isSome) : fillMatrix m = m := by
  have := fillStep_of_no_none_loop m [] h
  simpa [fillMatrix] using this

/-- C9 witness: a fully populated 2×2 grid passes through unchanged. -/
theorem c9_witness :
    fillMatrix [[some 1, some 2], [some 3, some 4]] =
      [[some 1, some 2], [some 3, some 4]] :=
  c9_fill_idempotent [[some 1, some 2], [some 3, some 4]] (by decide)

/-- C4: whenever the external implied-volatility solve fails — no root in
the bracket, non-convergence within the iteration budget, or a numeric
instability, all surfacing as a `RuntimeError` — `implied_vol_mid` returns
`None` (`none`); being a total function into `Option`, it propagates no
exception to its caller. -/
theorem c4_solver_failure_none (solver : ℚ → Except SolverFailure ℚ)
    (bid ask : ℚ) (f : SolverFailure)
    (h : solver ((1 / 2 : ℚ) * (bid + ask)) = .error f) :
    implied_vol_mid solver bid ask = none := by
  unfold implied_vol_mid
  simp only [h]

/-- C4 witness: a solver that fails to bracket a root yields `none`. -/
theorem c4_witness :
    implied_vol_mid (fun _ => .error .noRoot) 3 5 = none :=
  c4_solver_failure_none (fun _ => .error .noRoot) 3 5 .noRoot rfl

/-- C5: `Surface.query` clamps at the grid boundary instead of raising —
for any `t` at or beyond the maximum grid expiry and fixed `k`, the query
returns the same value as querying exactly at the maximum grid expiry;
out-of-bounds queries are never an error (`query` is total). -/
theorem c5_boundary_clamp (s : Surface) (t k : ℚ)
    (ht : s.ts.getLastD 0 ≤ t) :
    s.query t k = s.query (s.ts.getLastD 0) k := by
  unfold Surface.query clamp
  simp only [min_eq_right ht, min_self]

/-- C5 witness: querying a concrete two-expiry surface one unit beyond its
last expiry equals querying at the last expiry. -/
theorem c5_witness :
    Surface.query ⟨[0, 1], [100], [[2], [3]]⟩ 2 100 =
      Surface.query ⟨[0, 1], [100], [[2], [3]]⟩ 1 100 := by
  have h := c5_boundary_clamp ⟨[0, 1], [100], [[2], [3]]⟩ 2 100 (by decide)
  simpa using h

/-- C10: the cached-read branch of `get_option_data` overwrites the `spot`
column with the `strike` column (`df['spot'] = df['strike'].astype(float)`),
so every returned row has `spot = strike` and a surface rebuilt from
cached filtered data uses each quote's strike as its spot price. -/
theorem c10_spot_eq_strike (rows : List Quote) (r : Quote)
    (h : r ∈ get_option_data_cached rows) : r.spot = r.strike := by
  simp only [get_option_data_cached, List.mem_map] at h
  obtain ⟨r0, _, rfl⟩ := h
  rfl

/-- C10 witness: a cached row with distinct spot and strike comes back
with its spot equal to its strike. -/
theorem c10_witness :
    ((get_option_data_cached [⟨⟨2025, 7, 18⟩, 105, 98, 4, 5, 0, OptType.C⟩]).getD 0
        ⟨⟨2025, 7, 18⟩, 105, 98, 4, 5, 0, OptType.C⟩).spot =
      ((get_option_data_cached [⟨⟨2025, 7, 18⟩, 105, 98, 4, 5, 0, OptType.C⟩]).getD 0
        ⟨⟨2025, 7, 18⟩, 105, 98, 4, 5, 0, OptType.C⟩).strike :=
  c10_spot_eq_strike [⟨⟨2025, 7, 18⟩, 105, 98, 4, 5, 0, OptType.C⟩] _ (by decide)

/-- C1, evaluation at the failing input: on the grid
`[[1, 3, NaN], [NaN, NaN, NaN]]` the repair loop first forward-fills row 0
to `[1, 3, 3]` (in place), and only then computes the residual median for
the all-missing row 1 — `np.nanmedian` of the current matrix
`[[1, 3, 3], [NaN, NaN, NaN]]`, which is `3`.  The claimed frozen pre-fill
median of the grid is `nanmedian [[1, 3, NaN], [NaN, NaN, NaN]] = 2 ≠ 3`:
the source's residual fallback uses the median as fills progress, not the
median computed before any fill step. -/
theorem c1_failing_eval :
    fillMatrix [[some 1, some 3, none], [none, none, none]] =
      [[some 1, some 3, some 3], [some 3, some 3, some 3]] ∧
    nanmedian [[some 1, some 3, none], [none, none, none]] = some 2 ∧
    (3 : ℚ) ≠ 2 := by
  refine ⟨by decide, ?_, by norm_num⟩
  norm_num [nanmedian, gridVals, List.insertionSort, List.orderedInsert]

lemma getD_range_map (f : ℕ → ℕ) (n i : ℕ) (h : i < n) :
    ((List.range n).map f).getD i 0 = f i := by
  rw [List.getD_eq_getElem _ _ (by simpa using h)]
  simp

lemma sample_surface_getD (query : ℚ → ℚ → ℚ) (ts ks : List ℚ) (i : ℕ)
    (hi : i < ts.length) :
    (sample_surface query ts ks).getD i [] = ks.map fun k => query (ts.getD i 0) k := by
  unfold sample_surface
  have h1 : i < (ts.map fun t => ks.map fun k => query t k).length := by
    simpa using hi
  rw [List.getD_eq_getElem _ _ h1, List.getElem_map, List.getD_eq_getElem _ _ hi]

lemma map_getD_q (f : ℚ → ℚ) (l : List ℚ) (j : ℕ) (hj : j < l.length) :
    (l.map f).getD j 0 = f (l.getD j 0) := by
  have h1 : j < (l.map f).length := by simpa using hj
  rw [List.getD_eq_getElem _ _ h1, List.getElem_map, List.getD_eq_getElem _ _ hj]

lemma range_map_getD_q (g : ℕ → ℚ) (n i : ℕ) (h : i < n) :
    ((List.range n).map g).getD i 0 = g i := by
  have h1 : i < ((List.range n).map g).length := by simpa using h
  rw [List.getD_eq_getElem _ _ h1, List.getElem_map, List.getElem_range]

/-- C6 counterexample: the sampling expression of `run` performs no input
validation.  With `n_points = 0` it produces an empty date list and fails
with no error at all (refuting "for every call with `n_points < 2` it
fails with an input-validation error"); with `n_points = 1` it fails, but
with a `ZeroDivisionError` raised inside the offset computation, not a
validation error raised before any computation; and with
`n_points = 3, D = 3` days the produced offsets are `[0, 1, 3]` — gaps of
1 and 2 days — refuting exact even spacing. -/
theorem c6_counterexample :
    date_range 100 0 = .ok [] ∧ date_range 3 3 = .ok [0, 1, 3] ∧
      date_range 100 1 = .error .zeroDivision :=
  ⟨rfl, rfl, rfl⟩

/-- C6 (amended): for `n_points = n ≥ 2` the sampling expression produces
`n` day offsets `⌊i·D/(n-1)⌋` — approximately even spacing (gaps can
differ by one day when `n - 1` does not divide `D`) — whose first entry
is the valuation date (offset 0, inclusive) and whose last entry is the
last observed expiry (offset `D`, inclusive).  No validation of
`n_points` is performed anywhere (see the counterexample for
`n_points < 2`). -/
theorem c6_amended_sampler (D n : ℕ) (h : 2 ≤ n) :
    date_range D n = .ok ((List.range n).map fun i => i * D / (n - 1)) ∧
    ((List.range n).map fun i => i * D / (n - 1)).length = n ∧
    ((List.range n).map fun i => i * D / (n - 1)).getD 0 0 = 0 ∧
    ((List.range n).map fun i => i * D / (n - 1)).getD (n - 1) 0 = D := by
  have hne : n ≠ 1 := by omega
  refine ⟨by simp [date_range, hne], by simp, ?_, ?_⟩
  · rw [getD_range_map _ _ _ (by omega)]
    simp
  · rw [getD_range_map _ _ _ (by omega)]
    exact Nat.mul_div_cancel_left D (by omega)

/-- C6 witness: with 4 points over 10 days the offsets are
`[0, 3, 6, 10]` — 4 dates, endpoints inclusive. -/
theorem c6_witness :
    date_range 10 4 = .ok ((List.range 4).map fun i => i * 10 / (4 - 1)) ∧
    ((List.range 4).map fun i => i * 10 / (4 - 1)).length = 4 ∧
    ((List.range 4).map fun i => i * 10 / (4 - 1)).getD 0 0 = 0 ∧
    ((List.range 4).map fun i => i * 10 / (4 - 1)).getD (4 - 1) 0 = 10 :=
  c6_amended_sampler 10 4 (by decide)

/-- C7: for every surface query function, every `n_points = n ≥ 2` and
every strike list `ks`, the dense sampling of `run` produces the sampled
expiry year-fractions and an `n × ks.length` matrix whose `(i, j)` cell is
the surface queried at the `i`-th sampled year-fraction and `j`-th
strike. -/
theorem c7_sampler_cardinality (query : ℚ → ℚ → ℚ) (D n : ℕ) (ks : List ℚ)
    (i j : ℕ) (hn : 2 ≤ n) (hi : i < n) (hj : j < ks.length) :
    expiry_periods D n =
      .ok ((List.range n).map fun x => yearFraction (x * D / (n - 1))) ∧
    (sample_surface query
      ((List.range n).map fun x => yearFraction (x * D / (n - 1))) ks).length = n ∧
    ((sample_surface query
      ((List.range n).map fun x => yearFraction (x * D / (n - 1))) ks).getD i []).length =
      ks.length ∧
    ((sample_surface query
      ((List.range n).map fun x => yearFraction (x * D / (n - 1))) ks).getD i []).getD j 0 =
      query (yearFraction (i * D / (n - 1))) (ks.getD j 0) := by
  have hne : n ≠ 1 := by omega
  have hits : i < ((List.range n).map fun x => yearFraction (x * D / (n - 1))).length := by
    simpa using hi
  refine ⟨by simp [expiry_periods, date_range, hne, Except.map, List.map_map, Function.comp],
    by simp [sample_surface], ?_, ?_⟩
  · rw [sample_surface_getD _ _ _ _ hits]
    simp
  · rw [sample_surface_getD _ _ _ _ hits, map_getD_q _ _ _ hj,
      range_map_getD_q (fun x => yearFraction (x * D / (n - 1))) n i hi]

/-- C7 witness: with 3 sample points over 10 days and two strikes, the
sample is a 3×2 matrix whose `(2, 1)` cell queries the surface at the
last year-fraction and second strike. -/
theorem c7_witness :
    expiry_periods 10 3 =
      .ok ((List.range 3).map fun x => yearFraction (x * 10 / (3 - 1))) ∧
    (sample_surface (fun t k => t + k)
      ((List.range 3).map fun x => yearFraction (x * 10 / (3 - 1))) [100, 110]).length = 3 ∧
    ((sample_surface (fun t k => t + k)
      ((List.range 3).map fun x => yearFraction (x * 10 / (3 - 1))) [100, 110]).getD 2 []).length =
      [(100 : ℚ), 110].length ∧
    ((sample_surface (fun t k => t + k)
      ((List.range 3).map fun x => yearFraction (x * 10 / (3 - 1))) [100, 110]).getD 2 []).getD 1 0 =
      yearFraction (2 * 10 / (3 - 1)) + [(100 : ℚ), 110].getD 1 0 :=
  c7_sampler_cardinality (fun t k => t + k) 10 3 [100, 110] 2 1
    (by decide) (by decide) (by decide)

lemma countKey_cons (e : Date) (x : Quote) (l : List Quote) :
    countKey e (x :: l) = countKey e l + if x.expiry = e then 1 else 0 := by
  simp only [countKey, List.countP_cons, beq_iff_eq]

lemma countKey_append (e : Date) (l l' : List Quote) :
    countKey e (l ++ l') = countKey e l + countKey e l' :=
  List.countP_append _ _ _

lemma countKey_perm {l l' : List Quote} (h : l.Perm l') (e : Date) :
    countKey e l = countKey e l' :=
  h.countP_eq _

lemma mem_groupHeadAux_subset (n : ℕ) :
    ∀ (l seen : List Quote) (q : Quote), q ∈ groupHeadAux n seen l → q ∈ l := by
  intro l
  induction l with
  | nil => intro seen q hq; simp [groupHeadAux] at hq
  | cons x rest ih =>
    intro seen q hq
    unfold groupHeadAux at hq
    split at hq
    · rcases List.mem_cons.mp hq with rfl | hq
      · simp
      · exact List.mem_cons_of_mem x (ih _ q hq)
    · exact List.mem_cons_of_mem x (ih _ q hq)

lemma countKey_singleton (e : Date) (x : Quote) :
    countKey e [x] = if x.expiry = e then 1 else 0 := by
  simp [countKey, List.countP_cons, beq_iff_eq]

lemma countKey_groupHeadAux (n : ℕ) (e : Date) :
    ∀ (l seen : List Quote),
      countKey e (groupHeadAux n seen l) =
        min (n - countKey e seen) (countKey e l) := by
  intro l
  induction l with
  | nil => intro seen; simp [groupHeadAux, countKey]
  | cons x rest ih =>
    intro seen
    unfold groupHeadAux
    by_cases hkeep : countKey x.expiry seen < n
    · rw [if_pos hkeep]
      rw [countKey_cons, countKey_cons, ih, countKey_append, countKey_singleton]
      by_cases hx : x.expiry = e
      · rw [if_pos hx]
        rw [hx] at hkeep
        omega
      · rw [if_neg hx]
        omega
    · rw [if_neg hkeep]
      rw [countKey_cons, ih, countKey_append, countKey_singleton]
      by_cases hx : x.expiry = e
      · rw [if_pos hx]
        rw [hx] at hkeep
        omega
      · rw [if_neg hx]
        omega

lemma groupHeadAux_expiry_blocked {n : ℕ} {e : Date} {l seen : List Quote}
    (h : n ≤ countKey e seen) :
    ∀ q ∈ groupHeadAux n seen l, q.expiry ≠ e := by
  intro q hq he
  have hc := countKey_groupHeadAux n e l seen
  rw [Nat.sub_eq_zero_of_le h] at hc
  simp only [Nat.zero_min] at hc
  have hpos : 0 < countKey e (groupHeadAux n seen l) := by
    apply List.countP_pos_iff.mpr
    exact ⟨q, hq, by simp [he]⟩
  omega

lemma groupHeadAux_ranked (n : ℕ) :
    ∀ (l seen : List Quote), l.Pairwise diffLE →
      ∀ q q' : Quote, q ∈ groupHeadAux n seen l → q' ∈ l →
        q'.expiry = q.expiry → q' ∉ groupHeadAux n seen l → diffLE q q' := by
  intro l
  induction l with
  | nil => intro seen _ q q' _ hq'; simp at hq'
  | cons x rest ih =>
    intro seen hp q q' hq hq' he hq'n
    have hpt : rest.Pairwise diffLE := hp.of_cons
    unfold groupHeadAux at hq hq'n
    by_cases hkeep : countKey x.expiry seen < n
    · rw [if_pos hkeep] at hq hq'n
      rcases List.mem_cons.mp hq' with heq | hq'r
      · subst heq
        exact absurd (List.mem_cons_self _ _) hq'n
      · rcases List.mem_cons.mp hq with heq2 | hqg
        · subst heq2
          exact List.rel_of_pairwise_cons hp hq'r
        · exact ih _ hpt q q' hqg hq'r he fun hcon =>
            hq'n (List.mem_cons_of_mem x hcon)
    · rw [if_neg hkeep] at hq hq'n
      rcases List.mem_cons.mp hq' with heq | hq'r
      · subst heq
        have hblock := @groupHeadAux_expiry_blocked n q'.expiry rest (seen ++ [q'])
          (by rw [countKey_append, countKey_singleton, if_pos rfl]; omega)
        exact absurd he.symm (hblock q hq)
      · exact ih _ hpt q q' hq hq'r he hq'n

lemma mem_futureStd {today e : Date} {quotes : List Quote} :
    e ∈ futureStd today quotes ↔
      (∃ q ∈ quotes, q.expiry = e) ∧ is_third_friday e = true ∧
        today.ord ≤ e.ord := by
  simp [futureStd, List.mem_filter, List.mem_dedup, List.mem_map,
    Bool.and_eq_true, decide_eq_true_iff]

lemma mem_stdCalls {today : Date} {quotes : List Quote} {q : Quote} :
    q ∈ stdCalls today quotes ↔
      q ∈ quotes ∧ q.ty = OptType.C ∧ is_third_friday q.expiry = true ∧
        today.ord ≤ q.expiry.ord := by
  constructor
  · intro h
    simp only [stdCalls, List.mem_filter, beq_iff_eq] at h
    obtain ⟨⟨hq, hcont⟩, hty⟩ := h
    have hmem : q.expiry ∈ futureStd today quotes := by
      simpa using hcont
    obtain ⟨_, h3, hord⟩ := mem_futureStd.mp hmem
    exact ⟨hq, hty, h3, hord⟩
  · rintro ⟨hq, hty, h3, hord⟩
    simp only [stdCalls, List.mem_filter, beq_iff_eq]
    refine ⟨⟨hq, ?_⟩, hty⟩
    have : q.expiry ∈ futureStd today quotes :=
      mem_futureStd.mpr ⟨⟨q, hq, rfl⟩, h3, hord⟩
    simpa using this

lemma mem_atm_filter {today : Date} {quotes : List Quote} {q : Quote} :
    q ∈ atm_filter today quotes ↔
      q ∈ groupHead 10 (List.insertionSort diffLE (stdCalls today quotes)) := by
  unfold atm_filter
  exact List.mem_insertionSort expLE

/-- C8 (amended): the filtering step keeps only Call-type quotes whose
expiry is a third-Friday on or after the valuation date — at *every* such
expiry, not only the single earliest one.  Within each expiry it keeps the
quotes ranked first by `abs(strike - spot)` ascending: exactly
`min 10 (number of eligible Call quotes at that expiry)` quotes per
expiry, and every kept quote ranks no worse (no larger `atm_diff`) than
any eligible same-expiry quote that was dropped. -/
theorem c8_amended_filter (today : Date) (quotes : List Quote)
    (q q' : Quote) (e : Date) (hq : q ∈ atm_filter today quotes) :
    (q ∈ quotes ∧ q.ty = OptType.C ∧ is_third_friday q.expiry = true ∧
      today.ord ≤ q.expiry.ord) ∧
    countKey e (atm_filter today quotes) =
      min 10 (countKey e (stdCalls today quotes)) ∧
    (q' ∈ stdCalls today quotes → q'.expiry = q.expiry →
      q' ∉ atm_filter today quotes → atmDiff q ≤ atmDiff q') := by
  have hsorted : (List.insertionSort diffLE (stdCalls today quotes)).Pairwise diffLE :=
    List.sorted_insertionSort diffLE (stdCalls today quotes)
  refine ⟨?_, ?_, ?_⟩
  · have hq2 := mem_atm_filter.mp hq
    have hq3 := mem_groupHeadAux_subset 10 _ [] q hq2
    exact mem_stdCalls.mp ((List.mem_insertionSort diffLE).mp hq3)
  · have h1 : countKey e (atm_filter today quotes) =
        countKey e (groupHead 10 (List.insertionSort diffLE (stdCalls today quotes))) := by
      unfold atm_filter
      exact countKey_perm (List.perm_insertionSort expLE _) e
    rw [h1]
    unfold groupHead
    rw [countKey_groupHeadAux]
    rw [countKey_perm (List.perm_insertionSort diffLE _) e]
    simp [countKey]
  · intro hq' he hq'n
    have hq2 := mem_atm_filter.mp hq
    have hq'2 : q' ∉ groupHead 10 (List.insertionSort diffLE (stdCalls today quotes)) :=
      fun hcon => hq'n (mem_atm_filter.mpr hcon)
    exact groupHeadAux_ranked 10 _ [] hsorted q q' hq2
      ((List.mem_insertionSort diffLE).mpr hq') he hq'2

/-- C8 counterexample: with quotes at two upcoming third-Friday expiries
(2025-06-20 and 2025-07-18, valuation date 2025-06-01), the filter keeps
*both* — including the quote at 2025-07-18, which is not the earliest
third-Friday expiry on/after the valuation date — refuting "keeps only
quotes at the single earliest third-Friday expiry".  The source filters
with `isin(future_std)` over *all* upcoming third Fridays and takes
`groupby("expiry").head(10)`, 10 per expiry. -/
theorem c8_counterexample :
    atm_filter ⟨2025, 6, 1⟩
      [⟨⟨2025, 6, 20⟩, 105, 100, 9, 10, 0, OptType.C⟩,
        ⟨⟨2025, 7, 18⟩, 105, 100, 4, 5, 0, OptType.C⟩] =
      [⟨⟨2025, 6, 20⟩, 105, 100, 9, 10, 0, OptType.C⟩,
        ⟨⟨2025, 7, 18⟩, 105, 100, 4, 5, 0, OptType.C⟩] ∧
    is_third_friday ⟨2025, 6, 20⟩ = true ∧
    is_third_friday ⟨2025, 7, 18⟩ = true ∧
    Date.ord ⟨2025, 6, 20⟩ < Date.ord ⟨2025, 7, 18⟩ := by
  refine ⟨?_, by decide, by decide, by decide⟩
  norm_num [atm_filter, stdCalls, futureStd, is_third_friday, fridaysOfMonth,
    daysInMonth, isLeap, Date.weekday, Date.ord, daysBeforeMonth, groupHead,
    groupHeadAux, countKey, atmDiff, diffLE, expLE, List.insertionSort,
    List.orderedInsert, List.dedup, List.pwFilter, List.range_succ]

/-- C8 witness: a single Call quote at the upcoming third Friday
2025-06-20 is kept; it satisfies the eligibility characterization, its
expiry group has `min 10 1 = 1` kept quote, and the ranking clause holds. -/
theorem c8_witness :
    ((⟨⟨2025, 6, 20⟩, 105, 100, 9, 10, 0, OptType.C⟩ : Quote) ∈
        [(⟨⟨2025, 6, 20⟩, 105, 100, 9, 10, 0, OptType.C⟩ : Quote)] ∧
      (⟨⟨2025, 6, 20⟩, 105, 100, 9, 10, 0, OptType.C⟩ : Quote).ty = OptType.C ∧
      is_third_friday (⟨⟨2025, 6, 20⟩, 105, 100, 9, 10, 0, OptType.C⟩ : Quote).expiry = true ∧
      (⟨2025, 6, 1⟩ : Date).ord ≤ (⟨⟨2025, 6, 20⟩, 105, 100, 9, 10, 0, OptType.C⟩ : Quote).expiry.ord) ∧
    countKey ⟨2025, 6, 20⟩
        (atm_filter ⟨2025, 6, 1⟩ [⟨⟨2025, 6, 20⟩, 105, 100, 9, 10, 0, OptType.C⟩]) =
      min 10 (countKey ⟨2025, 6, 20⟩
        (stdCalls ⟨2025, 6, 1⟩ [⟨⟨2025, 6, 20⟩, 105, 100, 9, 10, 0, OptType.C⟩])) ∧
    ((⟨⟨2025, 6, 20⟩, 105, 100, 9, 10, 0, OptType.C⟩ : Quote) ∈
        stdCalls ⟨2025, 6, 1⟩ [⟨⟨2025, 6, 20⟩, 105, 100, 9, 10, 0, OptType.C⟩] →
      (⟨⟨2025, 6, 20⟩, 105, 100, 9, 10, 0, OptType.C⟩ : Quote).expiry =
        (⟨⟨2025, 6, 20⟩, 105, 100, 9, 10, 0, OptType.C⟩ : Quote).expiry →
      (⟨⟨2025, 6, 20⟩, 105, 100, 9, 10, 0, OptType.C⟩ : Quote) ∉
        atm_filter ⟨2025, 6, 1⟩ [⟨⟨2025, 6, 20⟩, 105, 100, 9, 10, 0, OptType.C⟩] →
      atmDiff ⟨⟨2025, 6, 20⟩, 105, 100, 9, 10, 0, OptType.C⟩ ≤
        atmDiff ⟨⟨2025, 6, 20⟩, 105, 100, 9, 10, 0, OptType.C⟩) :=
  c8_amended_filter ⟨2025, 6, 1⟩ [⟨⟨2025, 6, 20⟩, 105, 100, 9, 10, 0, OptType.C⟩]
    ⟨⟨2025, 6, 20⟩, 105, 100, 9, 10, 0, OptType.C⟩
    ⟨⟨2025, 6, 20⟩, 105, 100, 9, 10, 0, OptType.C⟩
    ⟨2025, 6, 20⟩ (by decide)
